import Mathlib

/-!
# Verification of the clustersql node-racing connection broker

Shallow embedding of `cluster.go` (package `clustersql`): the node registry
(`AddNode`, `DelNode`, `Nodes`) and the racing `Driver.Open`, plus the older
`Cluster` revision's `Close` and `Open` methods.

Connections (`driver.Conn`) are modelled as `Option Nat` handles (`none` is Go's
`nil`), errors as `Option String` (`none` is Go's `nil` error; `some msg` carries
the message returned by `Error()`).  The nondeterministic order in which the
racing goroutines' results are received on the channel `cc` is made explicit as
the list `arrivals`; faithfulness to one-goroutine-per-node is the hypothesis
that `arrivals` is a permutation of `attempts dial snapshot`.
-/

namespace Clustersql

/-- A registered node (`cluster.go` type `node`): name and DSN.  The per-node
expvar map lives in the driver state (`DriverM.exp`). -/
structure NodeR where
  name : String
  dsn : String
deriving DecidableEq, Repr

/-- Per-node expvar telemetry: the `Connections` and `Errors` counters and the
`LastSuccess` / `LastError` / `LastErrorMessage` vars set by `Driver.Open`.
Timestamps are modelled as the logical step index at which they were set. -/
structure Telemetry where
  connections : Nat
  errors : Nat
  lastSuccess : Option Nat
  lastError : Option Nat
  lastErrorMessage : Option String
deriving DecidableEq, Repr

/-- A freshly initialised expvar map (`new(expvar.Map).Init()`): all counters
absent, i.e. read as zero. -/
def Telemetry.start : Telemetry := ⟨0, 0, none, none, none⟩

/-- Go map update `m[k] = v`: replaces the binding if the key is present,
otherwise appends it.  Keys stay unique. -/
def setKey : List (String × Option NodeR) → String → Option NodeR → List (String × Option NodeR)
  | [], k, v => [(k, v)]
  | (k', v') :: rest, k, v =>
      if k' = k then (k, v) :: rest else (k', v') :: setKey rest k v

/-- Go map lookup `m[k]`: `some v` when the key is bound to `v` (which is itself
an `Option NodeR`, since Go stores possibly-nil pointers), `none` when absent. -/
def getKey : List (String × Option NodeR) → String → Option (Option NodeR)
  | [], _ => none
  | (k', v') :: rest, k => if k' = k then some v' else getKey rest k

/-- The clustering `Driver` (`cluster.go` lines 94-98): the node map
`nodes map[string]*node` (a `none` value is a nil pointer left by `DelNode`)
and the expvar map `exp`, holding one telemetry map per node name. -/
structure DriverM where
  nodes : List (String × Option NodeR)
  exp : String → Telemetry

/-- `NewDriver` (`cluster.go` lines 177-184): empty node map, fresh expvar map. -/
def newDriver : DriverM :=
  ⟨[], fun _ => Telemetry.start⟩

/-- `Driver.AddNode` (`cluster.go` lines 107-112): stores a fresh expvar map for
`name` and binds `name` to the new node, replacing any previous binding. -/
def addNode (d : DriverM) (name dsn : String) : DriverM :=
  ⟨setKey d.nodes name (some ⟨name, dsn⟩),
   fun k => if k = name then Telemetry.start else d.exp k⟩

/-- `Driver.DelNode` (`cluster.go` lines 115-117): `d.nodes[name] = nil` — the
key is bound to a nil pointer, not deleted from the map. -/
def delNode (d : DriverM) (name : String) : DriverM :=
  ⟨setKey d.nodes name none, d.exp⟩

/-- The keys of the node map, in the registry's internal order. -/
def nodeKeys (d : DriverM) : List String :=
  d.nodes.map Prod.fst

/-- Lexicographic comparison of code sequences: the order `sort.Strings` uses
(Go compares the UTF-8 bytes; for valid UTF-8 that coincides with the
code-point lexicographic order modelled here). -/
def lexLe : List Nat → List Nat → Bool
  | [], _ => true
  | _ :: _, [] => false
  | a :: as, b :: bs => if a < b then true else if b < a then false else lexLe as bs

/-- Go's `s1 <= s2` on strings, via the code points. -/
def strLe (x y : String) : Bool :=
  lexLe (x.data.map Char.toNat) (y.data.map Char.toNat)

/-- `Driver.Nodes` (`cluster.go` lines 120-127): collect the map keys (Go map
iteration yields them in an arbitrary order, here the parameter `order`) and
`sort.Strings` them. -/
def driverNodes (order : List String) : List String :=
  order.insertionSort (fun a b => strLe a b = true)

/-!
## The race (`Driver.Open`, `cluster.go` lines 130-174)

Each registered node gets one goroutine that calls
`upstreamDriver.Open(n.DSN)` once and then offers its result on channel `cc`,
or — if `die` was closed first — closes its connection (if non-nil) instead.
The receiver loop takes up to `len(d.nodes)` messages; the first message with
a nil error is the winner (its node's `Connections` counter is bumped, `die`
is closed, the loop breaks); a message with an error bumps that node's
`Errors` counter, records `LastError`/`LastErrorMessage` and closes the
message's connection if non-nil.  `Open` returns the last message's
`(conn, err)` pair — the zero value `(nil, nil)` when no message was taken.
-/

/-- One message on channel `cc` (`cluster.go` type `c`, lines 131-135): the
node's name, the connection (if any) and the error (if any) produced by its
single dial attempt. -/
structure Arrival where
  name : String
  conn : Option Nat
  err : Option String
deriving DecidableEq, Repr

/-- The dial outcome of one node: the goroutine body's call
`d.upstreamDriver.Open(n.DSN)` packaged as a channel message. -/
def attempt (dial : String → Option Nat × Option String) (n : NodeR) : Arrival :=
  ⟨n.name, (dial n.dsn).1, (dial n.dsn).2⟩

/-- All dial attempts launched by one `Driver.Open` call: exactly one per node
of the snapshot. -/
def attempts (dial : String → Option Nat × Option String) (snapshot : List NodeR) :
    List Arrival :=
  snapshot.map (attempt dial)

/-- Mutable state threaded through a race: the per-node telemetry maps and the
list of connection handles on which `Close()` has been invoked. -/
structure RaceState where
  tele : String → Telemetry
  closed : List Nat

/-- Success bookkeeping (`cluster.go` lines 156-158): `Add("Connections", 1)`
and `Set("LastSuccess", Time)` on the winning node's expvar map. -/
def recordSuccess (st : RaceState) (nm : String) (t : Nat) : RaceState :=
  { st with tele := fun k =>
      if k = nm then
        { st.tele nm with connections := (st.tele nm).connections + 1, lastSuccess := some t }
      else st.tele k }

/-- Failure bookkeeping (`cluster.go` lines 162-166): `Add("Errors", 1)`,
`Set("LastError", Time)`, `Set("LastErrorMessage", Err)`. -/
def recordFailure (st : RaceState) (nm : String) (t : Nat) (msg : String) : RaceState :=
  { st with tele := fun k =>
      if k = nm then
        { st.tele nm with errors := (st.tele nm).errors + 1, lastError := some t,
                          lastErrorMessage := some msg }
      else st.tele k }

/-- `if conn != nil { conn.Close() }`. -/
def closeConn (st : RaceState) (c : Option Nat) : RaceState :=
  match c with
  | none => st
  | some h => { st with closed := st.closed ++ [h] }

/-- Result of the receiver loop: the state, the pair `(n.conn, n.err)` the
function will return, and the arrivals never received (their goroutines take
the `die` branch). -/
structure LoopOut where
  st : RaceState
  res : Option Nat × Option String
  rest : List Arrival

/-- The failure branch of the loop body (`cluster.go` lines 161-171) applied to
arrival `a` at step `t`. -/
def failStep (st : RaceState) (a : Arrival) (t : Nat) : RaceState :=
  closeConn (recordFailure st a.name t (a.err.getD "")) a.conn

/-- The receiver loop of `Driver.Open` (`cluster.go` lines 151-172) over the
arrivals in channel order.  `last` is the current value of the variable `n`
(zero value `(none, none)` before the first receive). -/
def openLoop : List Arrival → Nat → RaceState → Option Nat × Option String → LoopOut
  | [], _, st, last => ⟨st, last, []⟩
  | a :: rest, t, st, _ =>
      if a.err = none then
        ⟨recordSuccess st a.name t, (a.conn, none), rest⟩
      else
        openLoop rest (t + 1) (failStep st a t) (a.conn, a.err)

/-- The effect of one `Driver.Open` call.  `state` is the state at the moment
the function returns: only the receiver loop itself has run, so `state.closed`
holds exactly the closes the loop performed (failing arrivals' non-nil
connections, `cluster.go` lines 168-170).  The goroutines whose sends were
never received take the `die` branch (`cluster.go` lines 144-148) and close
their own connections at an arbitrary later scheduling point — `Open` does not
wait for them (there is no `WaitGroup`), so those closes are unordered with
respect to the return; `lateClosed` lists the handles they will close. -/
structure RaceResult where
  state : RaceState
  conn : Option Nat
  err : Option String
  consumed : Nat
  lateClosed : List Nat

/-- `Driver.Open` (`cluster.go` lines 130-174) given the channel arrival order
`arrivals` and the pre-race telemetry `tele0` (the driver's expvar maps). -/
def raceOpen (arrivals : List Arrival) (tele0 : String → Telemetry) : RaceResult :=
  ⟨(openLoop arrivals 0 ⟨tele0, []⟩ (none, none)).st,
   (openLoop arrivals 0 ⟨tele0, []⟩ (none, none)).res.1,
   (openLoop arrivals 0 ⟨tele0, []⟩ (none, none)).res.2,
   arrivals.length - (openLoop arrivals 0 ⟨tele0, []⟩ (none, none)).rest.length,
   (openLoop arrivals 0 ⟨tele0, []⟩ (none, none)).rest.filterMap Arrival.conn⟩

/-!
## The older `Cluster` revision (`cluster.go` lines 186-296)
-/

/-- The older revision's `Node` (`cluster.go` lines 209-215): cached connection
and last error. -/
structure NodeC where
  name : String
  dataSourceName : String
  conn : Option Nat
  waiting : Bool
  err : Option String
deriving DecidableEq, Repr

/-- The older revision's `Cluster` (`cluster.go` lines 200-203), keeping its
node collection in iteration order. -/
structure ClusterM where
  nodes : List NodeC

/-- The loop body of `Cluster.Close` (`cluster.go` lines 263-269): close every
cached connection; a close error is only logged (collected here as
`(name, message)` pairs), never returned.  `closeErr` gives the error each
handle's `Close()` reports, `none` for a clean close. -/
def closeLoop (closeErr : Nat → Option String) : List NodeC → List (String × String)
  | [] => []
  | nd :: rest =>
      match nd.conn with
      | none => closeLoop closeErr rest
      | some h =>
          match closeErr h with
          | none => closeLoop closeErr rest
          | some e => (nd.name, e) :: closeLoop closeErr rest

/-- `Cluster.Close` (`cluster.go` lines 262-272): the log lines it emits and
the error it returns. -/
def clusterClose (cl : ClusterM) (closeErr : Nat → Option String) :
    List (String × String) × Option String :=
  (closeLoop closeErr cl.nodes, none)

/-- `Cluster.Open` (part of the older revision): `return cluster, nil`. -/
def clusterOpen (cl : ClusterM) (name : String) : ClusterM × Option String :=
  (cl, none)

/-- `ClusterDriver` (`cluster.go` lines 282-284). -/
structure ClusterDriverM where
  cluster : ClusterM

/-- `ClusterDriver.Open` (`cluster.go` lines 294-296): `return d.cluster, nil`. -/
def clusterDriverOpen (d : ClusterDriverM) (name : String) : ClusterM × Option String :=
  (d.cluster, none)

/-- The state reached after processing a run of failing arrivals (closed form
of what the receiver loop does to a failing prefix). -/
def runFails : List Arrival → Nat → RaceState → RaceState
  | [], _, st => st
  | a :: rest, t, st => runFails rest (t + 1) (failStep st a t)

/-!
## Helper lemmas about the receiver loop
-/

lemma closeConn_tele (st : RaceState) (c : Option Nat) : (closeConn st c).tele = st.tele := by
  cases c <;> rfl

lemma closeConn_closed (st : RaceState) (c : Option Nat) :
    (closeConn st c).closed = st.closed ++ c.toList := by
  cases c <;> simp [closeConn]

lemma failStep_errors (st : RaceState) (a : Arrival) (t : Nat) (nm : String) :
    ((failStep st a t).tele nm).errors =
      (st.tele nm).errors + (if nm = a.name then 1 else 0) := by
  by_cases hnm : nm = a.name <;>
    simp [failStep, closeConn_tele, recordFailure, hnm]

lemma failStep_connections (st : RaceState) (a : Arrival) (t : Nat) (nm : String) :
    ((failStep st a t).tele nm).connections = (st.tele nm).connections := by
  by_cases hnm : nm = a.name <;>
    simp [failStep, closeConn_tele, recordFailure, hnm]

lemma failStep_closed (st : RaceState) (a : Arrival) (t : Nat) :
    (failStep st a t).closed = st.closed ++ a.conn.toList := by
  simp [failStep, closeConn_closed, recordFailure]

lemma runFails_errors :
    ∀ (l : List Arrival) (t : Nat) (st : RaceState) (nm : String),
      ((runFails l t st).tele nm).errors =
        (st.tele nm).errors + l.countP (fun a => decide (nm = a.name)) := by
  intro l
  induction l with
  | nil => intro t st nm; simp [runFails]
  | cons a rest ih =>
      intro t st nm
      rw [runFails, ih, failStep_errors, List.countP_cons]
      by_cases hnm : nm = a.name <;> simp [hnm] <;> omega

lemma runFails_connections :
    ∀ (l : List Arrival) (t : Nat) (st : RaceState) (nm : String),
      ((runFails l t st).tele nm).connections = (st.tele nm).connections := by
  intro l
  induction l with
  | nil => intro t st nm; simp [runFails]
  | cons a rest ih =>
      intro t st nm
      rw [runFails, ih, failStep_connections]

lemma runFails_closed :
    ∀ (l : List Arrival) (t : Nat) (st : RaceState),
      (runFails l t st).closed = st.closed ++ l.filterMap Arrival.conn := by
  intro l
  induction l with
  | nil => intro t st; simp [runFails]
  | cons a rest ih =>
      intro t st
      rw [runFails, ih, failStep_closed, List.filterMap_cons]
      cases a.conn <;> simp

lemma openLoop_allFail :
    ∀ (l : List Arrival) (t : Nat) (st : RaceState) (last : Option Nat × Option String),
      (∀ a ∈ l, a.err ≠ none) →
      openLoop l t st last =
        ⟨runFails l t st, l.foldl (fun _ x => (x.conn, x.err)) last, []⟩ := by
  intro l
  induction l with
  | nil => intro t st last _; rfl
  | cons a rest ih =>
      intro t st last h
      have ha : a.err ≠ none := h a (by simp)
      rw [openLoop, if_neg ha, ih (t + 1) (failStep st a t) (a.conn, a.err)
        (fun x hx => h x (by simp [hx]))]
      rfl

lemma openLoop_append_success :
    ∀ (pre : List Arrival) (w : Arrival) (post : List Arrival) (t : Nat)
      (st : RaceState) (last : Option Nat × Option String),
      (∀ a ∈ pre, a.err ≠ none) → w.err = none →
      openLoop (pre ++ w :: post) t st last =
        ⟨recordSuccess (runFails pre t st) w.name (t + pre.length), (w.conn, none), post⟩ := by
  intro pre
  induction pre with
  | nil =>
      intro w post t st last _ hw
      rw [List.nil_append, openLoop, if_pos hw]
      simp [runFails]
  | cons a pre ih =>
      intro w post t st last h hw
      have ha : a.err ≠ none := h a (by simp)
      rw [List.cons_append, openLoop, if_neg ha,
        ih w post (t + 1) (failStep st a t) (a.conn, a.err)
          (fun x hx => h x (by simp [hx])) hw]
      have harith : t + 1 + pre.length = t + (a :: pre).length := by
        simp; omega
      rw [runFails, harith]

lemma foldl_last :
    ∀ (l : List Arrival) (a : Arrival), l.getLast? = some a →
      ∀ last : Option Nat × Option String,
        l.foldl (fun _ x => (x.conn, x.err)) last = (a.conn, a.err) := by
  intro l
  induction l with
  | nil => intro a h; simp at h
  | cons x xs ih =>
      intro a h last
      cases xs with
      | nil =>
          simp [List.getLast?] at h
          subst h
          rfl
      | cons y ys =>
          have h2 : (y :: ys).getLast? = some a := by
            simpa [List.getLast?_cons_cons] using h
          simpa using ih a h2 (x.conn, x.err)

lemma countP_name_one :
    ∀ (l : List NodeR) (n : NodeR), n ∈ l → (l.map NodeR.name).Nodup →
      l.countP (fun m => decide (n.name = m.name)) = 1 := by
  intro l
  induction l with
  | nil => intro n h _; simp at h
  | cons x xs ih =>
      intro n hmem hnd
      rw [List.map_cons, List.nodup_cons] at hnd
      rw [List.countP_cons]
      rcases List.mem_cons.mp hmem with rfl | hx
      · have h0 : xs.countP (fun m => decide (n.name = m.name)) = 0 := by
          apply List.countP_eq_zero.mpr
          intro m hm
          simp only [decide_eq_true_eq]
          intro hEq
          exact hnd.1 (hEq ▸ List.mem_map_of_mem NodeR.name hm)
        simp [h0]
      · have h1 := ih n hx hnd.2
        have hne : ¬(n.name = x.name) := by
          intro hEq
          exact hnd.1 (hEq ▸ List.mem_map_of_mem NodeR.name hx)
        simp [h1, hne]

lemma recordSuccess_connections (st : RaceState) (nm : String) (t : Nat) (k : String) :
    ((recordSuccess st nm t).tele k).connections =
      (st.tele k).connections + (if k = nm then 1 else 0) := by
  by_cases hk : k = nm <;> simp [recordSuccess, hk]

lemma recordSuccess_errors (st : RaceState) (nm : String) (t : Nat) (k : String) :
    ((recordSuccess st nm t).tele k).errors = (st.tele k).errors := by
  by_cases hk : k = nm <;> simp [recordSuccess, hk]

lemma recordSuccess_closed (st : RaceState) (nm : String) (t : Nat) :
    (recordSuccess st nm t).closed = st.closed := rfl

lemma getKey_setKey_self :
    ∀ (l : List (String × Option NodeR)) (k : String) (v : Option NodeR),
      getKey (setKey l k v) k = some v := by
  intro l
  induction l with
  | nil => intro k v; simp [setKey, getKey]
  | cons p rest ih =>
      intro k v
      by_cases hk : p.1 = k
      · simp [setKey, hk, getKey]
      · simp [setKey, hk, getKey, ih]

lemma keys_setKey_of_mem :
    ∀ (l : List (String × Option NodeR)) (k : String) (v : Option NodeR),
      k ∈ l.map Prod.fst → (setKey l k v).map Prod.fst = l.map Prod.fst := by
  intro l
  induction l with
  | nil => intro k v h; simp at h
  | cons p rest ih =>
      intro k v h
      by_cases hk : p.1 = k
      · simp [setKey, hk]
      · have hmem : k ∈ rest.map Prod.fst := by
          rw [List.map_cons, List.mem_cons] at h
          rcases h with h1 | h1
          · exact absurd h1.symm hk
          · exact h1
        simp [setKey, hk, ih k v hmem]

lemma closeLoop_eq (closeErr : Nat → Option String) :
    ∀ l : List NodeC, closeLoop closeErr l
      = l.filterMap (fun nd => (nd.conn.bind closeErr).map (fun e => (nd.name, e))) := by
  intro l
  induction l with
  | nil => rfl
  | cons nd rest ih =>
      cases hc : nd.conn with
      | none => simp [closeLoop, hc, List.filterMap_cons, ih]
      | some h =>
          cases he : closeErr h with
          | none => simp [closeLoop, hc, he, List.filterMap_cons, ih]
          | some e => simp [closeLoop, hc, he, List.filterMap_cons, ih]

lemma lexLe_total : ∀ as bs : List Nat, lexLe as bs = true ∨ lexLe bs as = true := by
  intro as
  induction as with
  | nil => intro bs; left; rfl
  | cons a as ih =>
      intro bs
      cases bs with
      | nil => right; rfl
      | cons b bs =>
          rcases Nat.lt_trichotomy a b with h | h | h
          · left; simp [lexLe, h]
          · subst h
            rcases ih bs with h2 | h2
            · left; simp [lexLe, Nat.lt_irrefl, h2]
            · right; simp [lexLe, Nat.lt_irrefl, h2]
          · right; simp [lexLe, h]

lemma lexLe_trans :
    ∀ as bs cs : List Nat, lexLe as bs = true → lexLe bs cs = true → lexLe as cs = true := by
  intro as
  induction as with
  | nil => intro bs cs _ _; rfl
  | cons a as ih =>
      intro bs cs h1 h2
      cases bs with
      | nil => simp [lexLe] at h1
      | cons b bs =>
          cases cs with
          | nil => simp [lexLe] at h2
          | cons c cs =>
              by_cases hab : a < b
              · by_cases hbc : b < c
                · simp [lexLe, Nat.lt_trans hab hbc]
                · by_cases hcb : c < b
                  · simp [lexLe, hbc, hcb] at h2
                  · have hbc' : b = c :=
                      Nat.le_antisymm (Nat.not_lt.mp hcb) (Nat.not_lt.mp hbc)
                    subst hbc'
                    simp [lexLe, hab]
              · by_cases hba : b < a
                · simp [lexLe, hab, hba] at h1
                · have hab' : a = b :=
                    Nat.le_antisymm (Nat.not_lt.mp hba) (Nat.not_lt.mp hab)
                  subst hab'
                  simp only [lexLe, Nat.lt_irrefl, if_false] at h1
                  by_cases hac : a < c
                  · simp [lexLe, hac]
                  · by_cases hca : c < a
                    · simp [lexLe, hac, hca] at h2
                    · have hac' : a = c :=
                        Nat.le_antisymm (Nat.not_lt.mp hca) (Nat.not_lt.mp hac)
                      subst hac'
                      simp only [lexLe, Nat.lt_irrefl, if_false] at h2 ⊢
                      exact ih bs cs h1 h2

lemma lexLe_antisymm :
    ∀ as bs : List Nat, lexLe as bs = true → lexLe bs as = true → as = bs := by
  intro as
  induction as with
  | nil =>
      intro bs h1 h2
      cases bs with
      | nil => rfl
      | cons b bs => simp [lexLe] at h2
  | cons a as ih =>
      intro bs h1 h2
      cases bs with
      | nil => simp [lexLe] at h1
      | cons b bs =>
          by_cases hab : a < b
          · simp [lexLe, hab, Nat.lt_asymm hab] at h2
          · by_cases hba : b < a
            · simp [lexLe, hab, hba] at h1
            · have hab' : a = b :=
                Nat.le_antisymm (Nat.not_lt.mp hba) (Nat.not_lt.mp hab)
              subst hab'
              simp only [lexLe, Nat.lt_irrefl, if_false] at h1 h2
              rw [ih bs h1 h2]

lemma charToNat_injective : Function.Injective Char.toNat := by
  intro a b h
  have hval : a.val = b.val := by
    apply UInt32.ext
    exact h
  exact Char.ext hval

lemma string_data_injective (s t : String) (h : s.data = t.data) : s = t := by
  cases s
  cases t
  simp only at h
  rw [h]

instance : IsTotal String (fun a b => strLe a b = true) :=
  ⟨fun a b => lexLe_total _ _⟩

instance : IsTrans String (fun a b => strLe a b = true) :=
  ⟨fun _ _ _ h1 h2 => lexLe_trans _ _ _ h1 h2⟩

instance : IsAntisymm String (fun a b => strLe a b = true) := by
  refine ⟨fun a b h1 h2 => ?_⟩
  apply string_data_injective
  exact List.map_injective_iff.mpr charToNat_injective (lexLe_antisymm _ _ h1 h2)

lemma getLast?_mem_list : ∀ (l : List Arrival) (a : Arrival), l.getLast? = some a → a ∈ l := by
  intro l a h
  rcases List.mem_getLast?_eq_getLast (by rw [Option.mem_def]; exact h) with ⟨hne, heq⟩
  rw [heq]
  exact List.getLast_mem hne

/-- The observable fields of `raceOpen` when the arrival order is a failing
run `pre` followed by the first success `w` and the cancelled tail `post`:
the loop closes exactly the failing prefix's connections before returning,
while the tail's connections are left to the cancelled goroutines. -/
lemma raceOpen_success_fields (tele0 : String → Telemetry) (pre post : List Arrival)
    (w : Arrival) (hpre : ∀ a ∈ pre, a.err ≠ none) (hw : w.err = none) :
    (raceOpen (pre ++ w :: post) tele0).conn = w.conn ∧
    (raceOpen (pre ++ w :: post) tele0).err = none ∧
    (raceOpen (pre ++ w :: post) tele0).state.tele
      = (recordSuccess (runFails pre 0 ⟨tele0, []⟩) w.name pre.length).tele ∧
    (raceOpen (pre ++ w :: post) tele0).state.closed = pre.filterMap Arrival.conn ∧
    (raceOpen (pre ++ w :: post) tele0).lateClosed = post.filterMap Arrival.conn ∧
    (raceOpen (pre ++ w :: post) tele0).consumed = pre.length + 1 := by
  have hloop := openLoop_append_success pre w post 0 ⟨tele0, []⟩ (none, none) hpre hw
  refine ⟨?_, ?_, ?_, ?_, ?_, ?_⟩
  · simp [raceOpen, hloop]
  · simp [raceOpen, hloop]
  · simp [raceOpen, hloop]
  · simp [raceOpen, hloop, recordSuccess_closed, runFails_closed]
  · simp [raceOpen, hloop]
  · simp [raceOpen, hloop, List.length_append]
    omega

/-- The observable fields of `raceOpen` when every arrival carries an error. -/
lemma raceOpen_allFail_fields (tele0 : String → Telemetry) (arrivals : List Arrival)
    (hfail : ∀ a ∈ arrivals, a.err ≠ none) :
    (raceOpen arrivals tele0).err
      = (arrivals.foldl (fun _ x => (x.conn, x.err)) (none, none)).2 ∧
    (raceOpen arrivals tele0).state.tele = (runFails arrivals 0 ⟨tele0, []⟩).tele ∧
    (raceOpen arrivals tele0).consumed = arrivals.length := by
  have hloop := openLoop_allFail arrivals 0 ⟨tele0, []⟩ (none, none) hfail
  refine ⟨?_, ?_, ?_⟩ <;> simp [raceOpen, hloop]

/-!
## The claims
-/

/-- C1 (counterexample): on the empty node set, `Driver.Open` does not fail
with a `NoNodesConfigured` error — it returns the zero value `(nil, nil)`: the
error is nil, contrary to the claim that an error is returned. -/
theorem open_empty_returns_nil_error :
    (raceOpen [] (fun _ => Telemetry.start)).err = none ∧
    (raceOpen [] (fun _ => Telemetry.start)).conn = none :=
  ⟨rfl, rfl⟩

/-- C1 (amended): for the empty node set, `Driver.Open` returns immediately
without launching any dial attempt (nothing is consumed, nothing closed) and
returns no connection handle, but the error it returns is nil rather than a
`NoNodesConfigured` error (no such error exists in the code). -/
theorem open_empty_returns_immediately
    (dial : String → Option Nat × Option String) (tele0 : String → Telemetry)
    (arrivals : List Arrival) (h : arrivals.Perm (attempts dial [])) :
    (raceOpen arrivals tele0).conn = none ∧
    (raceOpen arrivals tele0).err = none ∧
    (raceOpen arrivals tele0).state.closed = [] ∧
    (raceOpen arrivals tele0).consumed = 0 := by
  have hnil : arrivals = [] := List.Perm.eq_nil (by simpa [attempts] using h)
  subst hnil
  exact ⟨rfl, rfl, rfl, rfl⟩

/-- Witness for C1's amended theorem at the empty snapshot. -/
theorem open_empty_returns_immediately_witness :
    (raceOpen [] (fun _ => Telemetry.start)).consumed = 0 :=
  (open_empty_returns_immediately (fun _ => (none, none)) (fun _ => Telemetry.start) []
    (List.Perm.refl _)).2.2.2

/-- C2 (code-bug evaluation): `DelNode` executes `d.nodes[name] = nil`, which
keeps the key bound (to a nil pointer) instead of deleting it.  After
`AddNode("x", "d")` then `DelNode("x")`, the key `"x"` is still in the map
(bound to nil) and `Nodes()` still lists `"x"`, contradicting both the claim
and `DelNode`'s own documentation that the node is unregistered. -/
theorem delNode_leaves_node_listed :
    nodeKeys (delNode (addNode newDriver "x" "d") "x") = ["x"] ∧
    getKey (delNode (addNode newDriver "x" "d") "x").nodes "x" = some none ∧
    driverNodes (nodeKeys (delNode (addNode newDriver "x" "d") "x")) = ["x"] :=
  ⟨rfl, rfl, rfl⟩

/-- C6: calling `AddNode` with a name that already exists replaces the old
entry (last-write-wins on the DSN) and installs a fresh telemetry map for that
name; the map keys are unchanged (no duplicate entry) and no error is raised —
`AddNode` is total and returns normally on every input. -/
theorem addNode_duplicate_replaces
    (d : DriverM) (name dsn : String) (h : name ∈ nodeKeys d) :
    getKey (addNode d name dsn).nodes name = some (some ⟨name, dsn⟩) ∧
    (addNode d name dsn).exp name = Telemetry.start ∧
    nodeKeys (addNode d name dsn) = nodeKeys d := by
  refine ⟨?_, ?_, ?_⟩
  · exact getKey_setKey_self d.nodes name (some ⟨name, dsn⟩)
  · simp [addNode]
  · exact keys_setKey_of_mem d.nodes name (some ⟨name, dsn⟩) h

/-- Witness for C6: re-adding `"x"` over an existing `"x"` entry replaces it. -/
theorem addNode_duplicate_replaces_witness :
    getKey (addNode (addNode newDriver "x" "d1") "x" "d2").nodes "x"
      = some (some ⟨"x", "d2"⟩) ∧
    nodeKeys (addNode (addNode newDriver "x" "d1") "x" "d2")
      = nodeKeys (addNode newDriver "x" "d1") := by
  have h := addNode_duplicate_replaces (addNode newDriver "x" "d1") "x" "d2" (by decide)
  exact ⟨h.1, h.2.2⟩

/-- C3: when the snapshot is non-empty and every dial attempt fails, the error
returned by `Driver.Open` is the most recently received failure's error (in
particular non-nil), and every node's `Errors` counter has been incremented by
exactly one before the call returns. -/
theorem open_all_fail_returns_last_error
    (dial : String → Option Nat × Option String) (tele0 : String → Telemetry)
    (snapshot : List NodeR) (arrivals : List Arrival) (la : Arrival)
    (hperm : arrivals.Perm (attempts dial snapshot))
    (hnd : (snapshot.map NodeR.name).Nodup)
    (hfail : ∀ a ∈ arrivals, a.err ≠ none)
    (hlast : arrivals.getLast? = some la) :
    (raceOpen arrivals tele0).err = la.err ∧
    la.err ≠ none ∧
    ∀ n ∈ snapshot, ((raceOpen arrivals tele0).state.tele n.name).errors
      = (tele0 n.name).errors + 1 := by
  have hf := raceOpen_allFail_fields tele0 arrivals hfail
  refine ⟨?_, ?_, ?_⟩
  · rw [hf.1, foldl_last arrivals la hlast]
  · exact hfail la (getLast?_mem_list arrivals la hlast)
  · intro n hn
    rw [hf.2.1, runFails_errors]
    have hc : arrivals.countP (fun a => decide (n.name = a.name)) = 1 := by
      rw [List.Perm.countP_eq _ hperm, attempts, List.countP_map]
      simpa [Function.comp, attempt] using countP_name_one snapshot n hn hnd
    rw [hc]

/-- Witness for C3: a two-node snapshot whose dials both fail, received in the
order B then A: the returned error is A's, and both error counters read 1. -/
theorem open_all_fail_returns_last_error_witness :
    (raceOpen [⟨"B", none, some "down"⟩, ⟨"A", none, some "down"⟩]
        (fun _ => Telemetry.start)).err = some "down" ∧
    ((raceOpen [⟨"B", none, some "down"⟩, ⟨"A", none, some "down"⟩]
        (fun _ => Telemetry.start)).state.tele "A").errors = 1 := by
  have h := open_all_fail_returns_last_error (fun _ => (none, some "down"))
    (fun _ => Telemetry.start) [⟨"A", "a"⟩, ⟨"B", "b"⟩]
    [⟨"B", none, some "down"⟩, ⟨"A", none, some "down"⟩] ⟨"A", none, some "down"⟩
    (by decide) (by decide) (by decide) (by decide)
  refine ⟨h.1, ?_⟩
  have h2 := h.2.2 ⟨"A", "a"⟩ (by decide)
  simpa [Telemetry.start] using h2

/-- C4 (counterexample): a dial that succeeds but loses the race does NOT
update its node's telemetry.  With arrival order C (success), B (success),
A (failure), the winner is C; B's connection (handle 2) is only closed by its
cancelled goroutine's `die` branch while B's `Connections` counter stays 0,
and A's `Errors` counter also stays 0 — contrary to the claim that every
result updates telemetry before the call returns. -/
theorem losing_success_not_recorded :
    ((raceOpen [⟨"C", some 1, none⟩, ⟨"B", some 2, none⟩, ⟨"A", none, some "boom"⟩]
        (fun _ => Telemetry.start)).state.tele "B").connections = 0 ∧
    2 ∈ (raceOpen [⟨"C", some 1, none⟩, ⟨"B", some 2, none⟩, ⟨"A", none, some "boom"⟩]
        (fun _ => Telemetry.start)).lateClosed ∧
    ((raceOpen [⟨"C", some 1, none⟩, ⟨"B", some 2, none⟩, ⟨"A", none, some "boom"⟩]
        (fun _ => Telemetry.start)).state.tele "A").errors = 0 := by
  refine ⟨rfl, ?_, rfl⟩
  decide

/-- C4 (amended): only results received by the loop before it stops update
telemetry.  In a race whose arrival order is a failing run `pre`, the winner
`w`, then `post`: a node's `Connections` counter is incremented exactly for
the winning success, its `Errors` counter exactly once per failure of that
node received before the winner; arrivals in `post` (losing successes and
late failures) update no telemetry — their connections are merely closed. -/
theorem open_telemetry_updates_before_break
    (tele0 : String → Telemetry) (pre post : List Arrival) (w : Arrival)
    (hpre : ∀ a ∈ pre, a.err ≠ none) (hw : w.err = none) :
    ∀ nm : String,
      ((raceOpen (pre ++ w :: post) tele0).state.tele nm).connections
        = (tele0 nm).connections + (if nm = w.name then 1 else 0) ∧
      ((raceOpen (pre ++ w :: post) tele0).state.tele nm).errors
        = (tele0 nm).errors + pre.countP (fun a => decide (nm = a.name)) := by
  intro nm
  have hf := raceOpen_success_fields tele0 pre post w hpre hw
  constructor
  · rw [hf.2.2.1, recordSuccess_connections, runFails_connections]
  · rw [hf.2.2.1, recordSuccess_errors, runFails_errors]

/-- Witness for C4's amended theorem: winner B at position 0 ahead of a losing
success C and a late failure A; B's counter reads 1, C's and A's read 0. -/
theorem open_telemetry_updates_before_break_witness :
    ((raceOpen [⟨"B", some 7, none⟩, ⟨"C", some 8, none⟩, ⟨"A", none, some "x"⟩]
        (fun _ => Telemetry.start)).state.tele "B").connections = 1 ∧
    ((raceOpen [⟨"B", some 7, none⟩, ⟨"C", some 8, none⟩, ⟨"A", none, some "x"⟩]
        (fun _ => Telemetry.start)).state.tele "C").connections = 0 := by
  have hB := open_telemetry_updates_before_break (fun _ => Telemetry.start) []
    [⟨"C", some 8, none⟩, ⟨"A", none, some "x"⟩] ⟨"B", some 7, none⟩
    (by intro a ha; simp at ha) rfl "B"
  have hC := open_telemetry_updates_before_break (fun _ => Telemetry.start) []
    [⟨"C", some 8, none⟩, ⟨"A", none, some "x"⟩] ⟨"B", some 7, none⟩
    (by intro a ha; simp at ha) rfl "C"
  exact ⟨by simpa [Telemetry.start] using hB.1, by simpa [Telemetry.start] using hC.1⟩

/-- C5 (counterexample): a dial that completes successfully after the winner
is chosen is NOT closed by the broker before the race call returns.  In the
race with winner B (handle 5) followed by the losing success C (handle 6),
the set of handles closed by the receiver loop when `Open` returns is empty:
C's handle is closed only by C's own cancelled goroutine via the `die`
branch, for which `Open` never waits (no synchronization after
`close(die); break; return`), so that close is unordered with — possibly
after — the return, contrary to the claim. -/
theorem late_success_not_closed_before_return :
    (raceOpen [⟨"B", some 5, none⟩, ⟨"C", some 6, none⟩]
        (fun _ => Telemetry.start)).conn = some 5 ∧
    (raceOpen [⟨"B", some 5, none⟩, ⟨"C", some 6, none⟩]
        (fun _ => Telemetry.start)).state.closed = [] ∧
    (raceOpen [⟨"B", some 5, none⟩, ⟨"C", some 6, none⟩]
        (fun _ => Telemetry.start)).lateClosed = [6] :=
  ⟨rfl, rfl, rfl⟩

/-- C5 (amended): in a race with at least one success, the single returned
handle is the first success's connection with a nil error, and no losing
result is ever exposed to the caller.  Losers split by when they are
released: the failures received before the winner have their non-nil
connections closed by the receiver loop before the call returns, while every
result arriving after the winner — including completed successes — is closed
by its own cancelled goroutine's `die` branch, concurrently with and possibly
after the call's return.  For pairwise-distinct handles the returned handle
is among neither the loop-closed nor the late-closed handles. -/
theorem open_winner_unique_losers_closed
    (tele0 : String → Telemetry) (pre post : List Arrival) (w : Arrival)
    (hpre : ∀ a ∈ pre, a.err ≠ none) (hw : w.err = none)
    (hdistinct : ∀ a ∈ pre ++ post, a.conn ≠ w.conn) :
    (raceOpen (pre ++ w :: post) tele0).conn = w.conn ∧
    (raceOpen (pre ++ w :: post) tele0).err = none ∧
    (raceOpen (pre ++ w :: post) tele0).state.closed = pre.filterMap Arrival.conn ∧
    (raceOpen (pre ++ w :: post) tele0).lateClosed = post.filterMap Arrival.conn ∧
    ∀ h : Nat, w.conn = some h →
      h ∉ (raceOpen (pre ++ w :: post) tele0).state.closed ∧
      h ∉ (raceOpen (pre ++ w :: post) tele0).lateClosed := by
  have hf := raceOpen_success_fields tele0 pre post w hpre hw
  refine ⟨hf.1, hf.2.1, hf.2.2.2.1, hf.2.2.2.2.1, ?_⟩
  intro h hwc
  constructor
  · intro hmem
    rw [hf.2.2.2.1] at hmem
    rcases List.mem_filterMap.mp hmem with ⟨a, ha, hac⟩
    exact hdistinct a (List.mem_append.mpr (Or.inl ha)) (hac.trans hwc.symm)
  · intro hmem
    rw [hf.2.2.2.2.1] at hmem
    rcases List.mem_filterMap.mp hmem with ⟨a, ha, hac⟩
    exact hdistinct a (List.mem_append.mpr (Or.inr ha)) (hac.trans hwc.symm)

/-- Witness for C5's amended theorem: failure A first, then winner B, then
losing success C: B's handle 5 is returned, the loop closed nothing (A had no
connection), C's handle 6 is left to its cancelled goroutine, and 5 appears
in neither closed set. -/
theorem open_winner_unique_losers_closed_witness :
    (raceOpen [⟨"A", none, some "x"⟩, ⟨"B", some 5, none⟩, ⟨"C", some 6, none⟩]
        (fun _ => Telemetry.start)).conn = some 5 ∧
    (raceOpen [⟨"A", none, some "x"⟩, ⟨"B", some 5, none⟩, ⟨"C", some 6, none⟩]
        (fun _ => Telemetry.start)).state.closed = [] ∧
    (raceOpen [⟨"A", none, some "x"⟩, ⟨"B", some 5, none⟩, ⟨"C", some 6, none⟩]
        (fun _ => Telemetry.start)).lateClosed = [6] ∧
    5 ∉ (raceOpen [⟨"A", none, some "x"⟩, ⟨"B", some 5, none⟩, ⟨"C", some 6, none⟩]
        (fun _ => Telemetry.start)).lateClosed := by
  have h := open_winner_unique_losers_closed (fun _ => Telemetry.start)
    [⟨"A", none, some "x"⟩] [⟨"C", some 6, none⟩] ⟨"B", some 5, none⟩
    (by decide) rfl (by decide)
  exact ⟨h.1, by simpa using h.2.2.1, by simpa using h.2.2.2.1, (h.2.2.2.2 5 rfl).2⟩

/-- C8: one `Driver.Open` call is exactly one race: with one arrival per node
of the snapshot (the permutation hypothesis), each node is dialled exactly
once; the loop performs at most one receive per attempt (no retry), stops
right after the first success, and, when every attempt fails, stops after
receiving all of them. -/
theorem open_single_race
    (dial : String → Option Nat × Option String) (tele0 : String → Telemetry)
    (snapshot : List NodeR) (arrivals : List Arrival)
    (hperm : arrivals.Perm (attempts dial snapshot))
    (hnd : (snapshot.map NodeR.name).Nodup) :
    (∀ n ∈ snapshot, arrivals.countP (fun a => decide (n.name = a.name)) = 1) ∧
    (raceOpen arrivals tele0).consumed ≤ arrivals.length ∧
    (∀ pre w post, arrivals = pre ++ w :: post →
      (∀ a ∈ pre, a.err ≠ none) → w.err = none →
      (raceOpen arrivals tele0).consumed = pre.length + 1) ∧
    ((∀ a ∈ arrivals, a.err ≠ none) →
      (raceOpen arrivals tele0).consumed = arrivals.length) := by
  refine ⟨?_, ?_, ?_, ?_⟩
  · intro n hn
    rw [List.Perm.countP_eq _ hperm, attempts, List.countP_map]
    simpa [Function.comp, attempt] using countP_name_one snapshot n hn hnd
  · exact Nat.sub_le _ _
  · intro pre w post heq hpre hw
    subst heq
    exact (raceOpen_success_fields tele0 pre post w hpre hw).2.2.2.2.2
  · intro hfail
    exact (raceOpen_allFail_fields tele0 arrivals hfail).2.2

/-- Witness for C8: a two-node snapshot where A fails and B succeeds, arrival
order A then B: each node is dialled once and the loop stops after the second
receive (the winner). -/
theorem open_single_race_witness :
    [Arrival.mk "A" none (some "x"), Arrival.mk "B" (some 3) none].countP
        (fun a => decide ("B" = a.name)) = 1 ∧
    (raceOpen [⟨"A", none, some "x"⟩, ⟨"B", some 3, none⟩]
        (fun _ => Telemetry.start)).consumed = 2 := by
  have h := open_single_race (fun d => if d = "b" then (some 3, none) else (none, some "x"))
    (fun _ => Telemetry.start) [⟨"A", "a"⟩, ⟨"B", "b"⟩]
    [⟨"A", none, some "x"⟩, ⟨"B", some 3, none⟩] (by decide) (by decide)
  refine ⟨?_, ?_⟩
  · have := h.1 ⟨"B", "b"⟩ (by decide)
    simpa using this
  · have := h.2.2.1 [⟨"A", none, some "x"⟩] ⟨"B", some 3, none⟩ [] rfl (by decide) rfl
    simpa using this

/-- C7: `Driver.Nodes` sorts the map keys, so whatever (arbitrary) order the
Go map iteration yields them in, the result is a lexicographically sorted
sequence containing exactly the keys; two calls without intervening mutation —
i.e. over any two iteration orders of the same key set — return the same
sequence. -/
theorem nodes_sorted_deterministic
    (d : DriverM) (o1 o2 : List String)
    (h1 : o1.Perm (nodeKeys d)) (h2 : o2.Perm (nodeKeys d)) :
    (driverNodes o1).Sorted (fun a b => strLe a b = true) ∧
    (driverNodes o1).Perm (nodeKeys d) ∧
    driverNodes o1 = driverNodes o2 := by
  refine ⟨List.sorted_insertionSort _ o1, (List.perm_insertionSort _ o1).trans h1, ?_⟩
  exact List.eq_of_perm_of_sorted
    (((List.perm_insertionSort _ o1).trans h1).trans
      (h2.symm.trans (List.perm_insertionSort _ o2).symm))
    (List.sorted_insertionSort _ o1) (List.sorted_insertionSort _ o2)

/-- Witness for C7: a two-key registry listed from both iteration orders. -/
theorem nodes_sorted_deterministic_witness :
    driverNodes ["b", "a"] = ["a", "b"] ∧
    driverNodes ["b", "a"] = driverNodes ["a", "b"] := by
  have h := nodes_sorted_deterministic (addNode (addNode newDriver "b" "x") "a" "y")
    ["b", "a"] ["a", "b"] (by decide) (by decide)
  exact ⟨by decide, h.2.2⟩

/-- C9: `Cluster.Close` always returns nil, whatever the cached connections and
whatever errors their individual `Close` calls report; those errors are only
logged (they all appear in the emitted log lines) and never propagated. -/
theorem clusterClose_returns_nil (cl : ClusterM) (closeErr : Nat → Option String) :
    (clusterClose cl closeErr).2 = none ∧
    (clusterClose cl closeErr).1 =
      cl.nodes.filterMap (fun nd => (nd.conn.bind closeErr).map (fun e => (nd.name, e))) :=
  ⟨rfl, closeLoop_eq closeErr cl.nodes⟩

/-- C10: `Cluster.Open` and `ClusterDriver.Open` return the cluster value
itself with a nil error, identically for every name argument; the call never
fails. -/
theorem clusterOpen_returns_cluster_nil
    (d : ClusterDriverM) (cl : ClusterM) (n1 n2 : String) :
    clusterDriverOpen d n1 = (d.cluster, none) ∧
    clusterDriverOpen d n1 = clusterDriverOpen d n2 ∧
    clusterOpen cl n1 = (cl, none) ∧
    clusterOpen cl n1 = clusterOpen cl n2 :=
  ⟨rfl, rfl, rfl, rfl⟩

end Clustersql
